import Mathlib

/-!
Verification of the regime-classification core of `regime_app.py`.

The numeric kernels (`rolling_mean_nb`, `annualized_volatility_nb`,
`determine_regime_nb`, `calculate_regimes_nb`) and the forecast wrapper
(`forecast_next_regime`) are embedded shallowly: a NumPy float is `Option ℝ`
with `none` playing the role of NaN, a NumPy array is a `List` of such
values, and each Python function becomes a Lean function of the same name
and structure.  IEEE infinities are not represented; the one operation that
could produce them (division in the percentage-change) maps a zero
denominator to `none`, and every theorem that touches it restricts to
nonzero (positive) prices, as the data model of the application requires.
-/

set_option maxHeartbeats 1000000

open Classical

noncomputable section

/-- A floating-point value as used by the NumPy kernels: `none` models NaN,
`some x` a finite real number. -/
abbrev FVal : Type := Option ℝ

/-- Strict `>` on floats: any comparison involving NaN is false. -/
def fgt (x y : FVal) : Prop :=
  ∃ a b : ℝ, x = some a ∧ y = some b ∧ b < a

/-- Strict `<` on floats: any comparison involving NaN is false. -/
def flt (x y : FVal) : Prop := fgt y x

/-- NaN-propagating subtraction. -/
def fsub : FVal → FVal → FVal
  | some a, some b => some (a - b)
  | _, _ => none

/-- NaN-propagating multiplication. -/
def fmul : FVal → FVal → FVal
  | some a, some b => some (a * b)
  | _, _ => none

/-- NaN-propagating division.  A zero denominator is mapped to NaN (IEEE
would produce an infinity, which the model does not represent; all theorems
involving division assume nonzero denominators). -/
def fdiv : FVal → FVal → FVal
  | some a, some b => if b = 0 then none else some (a / b)
  | _, _ => none

/-- The Python slice `l[a:b]` (step 1), with Python index normalisation:
negative indices count from the end, out-of-range ones are clamped. -/
def pySlice {α : Type} (l : List α) (a b : ℤ) : List α :=
  let n : ℤ := l.length
  let na := (if a < 0 then max (n + a) 0 else min a n).toNat
  let nb := (if b < 0 then max (n + b) 0 else min b n).toNat
  (l.take nb).drop na

/-- `np.mean` over a slice: NaN on an empty slice, and NaN-propagating
(a single NaN in the data makes the mean NaN). -/
def npMean (l : List FVal) : FVal :=
  if l = [] ∨ none ∈ l then none
  else some ((l.filterMap id).sum / (l.length : ℝ))

/-- `np.std` over a slice (NumPy default `ddof = 0`): the square root of the
mean squared deviation from the mean; NaN on an empty or NaN-containing
slice. -/
def npStd (l : List FVal) : FVal :=
  if l = [] ∨ none ∈ l then none
  else
    some (Real.sqrt
      (((l.filterMap id).map fun x =>
          (x - (l.filterMap id).sum / (l.length : ℝ)) ^ 2).sum / (l.length : ℝ)))

/-- `np.nanmean`: the mean of the non-NaN entries; NaN when there is no
defined entry (including the empty array). -/
def npNanmean (l : List FVal) : FVal :=
  if l.filterMap id = [] then none
  else some ((l.filterMap id).sum / ((l.filterMap id).length : ℝ))

/-- Source `rolling_mean_nb(arr, window)`: position `i` is NaN while
`i < window - 1`, otherwise the NumPy mean of `arr[i - window + 1 : i + 1]`. -/
def rolling_mean_nb (arr : List FVal) (window : ℤ) : List FVal :=
  (List.range arr.length).map fun (i : ℕ) =>
    if (i : ℤ) < window - 1 then none
    else npMean (pySlice arr ((i : ℤ) - window + 1) ((i : ℤ) + 1))

/-- Source `annualized_volatility_nb(returns, window)`: position `i` is NaN
while `i < window - 1`, otherwise `np.std(returns[i - window + 1 : i + 1])`
scaled by `np.sqrt(365)`. -/
def annualized_volatility_nb (returns : List FVal) (window : ℤ) : List FVal :=
  (List.range returns.length).map fun (i : ℕ) =>
    if (i : ℤ) < window - 1 then none
    else fmul (npStd (pySlice returns ((i : ℤ) - window + 1) ((i : ℤ) + 1)))
      (some (Real.sqrt 365))

/-- The loop body of `determine_regime_nb` for one index: the NaN check on
the two moving averages and the short volatility, then the strict
bull/bear/sideways comparisons, each branch split by `vol > threshold`. -/
def classify (p ms ml vs thr : FVal) : ℤ :=
  if ms = none ∨ ml = none ∨ vs = none then -1
  else if fgt p ms ∧ fgt p ml then if fgt vs thr then 1 else 2
  else if flt p ms ∧ flt p ml then if fgt vs thr then 5 else 6
  else if fgt vs thr then 3 else 4

/-- Source `determine_regime_nb(price, ma_short, ma_long, vol_short,
avg_vol_threshold)`.  The four arrays are index-aligned, as in the caller. -/
def determine_regime_nb (price ma_short ma_long vol_short : List FVal)
    (avg_vol_threshold : FVal) : List ℤ :=
  (List.range price.length).map fun i =>
    classify (price.getD i none) (ma_short.getD i none) (ma_long.getD i none)
      (vol_short.getD i none) avg_vol_threshold

/-- Source `calculate_regimes_nb`: the two moving averages of the price, the
short annualized volatility of the returns, the scalar threshold
`np.nanmean(annualized_volatility_nb(returns, avg_vol_window))`, then the
per-index classifier. -/
def calculate_regimes_nb (price returns : List FVal)
    (ma_short_window ma_long_window vol_short_window avg_vol_window : ℤ) : List ℤ :=
  determine_regime_nb price
    (rolling_mean_nb price ma_short_window)
    (rolling_mean_nb price ma_long_window)
    (annualized_volatility_nb returns vol_short_window)
    (npNanmean (annualized_volatility_nb returns avg_vol_window))

/-- Pandas `pct_change` on a price column: NaN at position 0, otherwise
`(p[i] - p[i-1]) / p[i-1]`, propagating NaN. -/
def pct_change (price : List FVal) : List FVal :=
  (List.range price.length).map fun i =>
    if i = 0 then none
    else fdiv (fsub (price.getD i none) (price.getD (i - 1) none))
      (price.getD (i - 1) none)

/-- Source `forecast_next_regime`: append one synthetic bar at the last
price times `1 + hypothetical_change`, recompute the whole return column
with `pct_change`, rerun `calculate_regimes_nb` with the hard-coded windows
(21, 88, 21, 365) over the extended series, and return its last label.
`none` models the `IndexError` that `iloc[-1]` raises on an empty series. -/
def forecast_next_regime (price : List FVal) (hypothetical_change : ℝ) : Option ℤ :=
  match price.getLast? with
  | none => none
  | some lastP =>
      let extended := price ++ [fmul lastP (some (1 + hypothetical_change))]
      (calculate_regimes_nb extended (pct_change extended) 21 88 21 365).getLast?

/-- Population (uncorrected, divisor `n`) standard deviation of a list of
real numbers — the statistic `np.std` computes with its default `ddof = 0`. -/
def popStd (l : List ℝ) : ℝ :=
  Real.sqrt ((l.map fun x => (x - l.sum / (l.length : ℝ)) ^ 2).sum / (l.length : ℝ))

/-- The corrected sample standard deviation (Bessel divisor `n - 1`), the
textbook reading of the words "sample standard deviation". -/
def sampleStd (l : List ℝ) : ℝ :=
  Real.sqrt ((l.map fun x => (x - l.sum / (l.length : ℝ)) ^ 2).sum / ((l.length : ℝ) - 1))

/-- The trailing window of size `wn` ending at index `i` (inclusive), as a
plain `List` operation; proof-side normal form of the Python slice
`l[i - wn + 1 : i + 1]`. -/
def trailing {α : Type} (l : List α) (i wn : ℕ) : List α :=
  (l.take (i + 1)).drop (i + 1 - wn)

end

/-! ### List-level helper lemmas -/

lemma getD_map_range {α : Type} (f : ℕ → α) {n i : ℕ} (h : i < n) (d : α) :
    ((List.range n).map f).getD i d = f i := by
  have : ((List.range n).map f)[i]? = some (f i) := by
    simp [List.getElem?_map, List.getElem?_range, h]
  simp [List.getD, this]

lemma getD_map_some {β : Type} (l : List β) {i : ℕ} (h : i < l.length) (d : β) :
    (l.map some).getD i none = some (l.getD i d) := by
  simp [List.getD, List.getElem?_map, List.getElem?_eq_getElem h, List.getD_eq_getElem l d h]

lemma pySlice_eq_trailing {α : Type} (l : List α) (w : ℤ) (hw : 1 ≤ w) (i : ℕ)
    (hiw : (w : ℤ) - 1 ≤ (i : ℤ)) :
    pySlice l ((i : ℤ) - w + 1) ((i : ℤ) + 1) = trailing l i w.toNat := by
  unfold pySlice trailing
  have ha : ¬ ((i : ℤ) - w + 1 < 0) := by omega
  have hb : ¬ ((i : ℤ) + 1 < 0) := by omega
  simp only [if_neg ha, if_neg hb]
  have htake : l.take ((min ((i : ℤ) + 1) ((l.length : ℕ) : ℤ)).toNat) = l.take (i + 1) := by
    rcases le_or_lt ((i : ℤ) + 1) ((l.length : ℕ) : ℤ) with h | h
    · congr 1; omega
    · have h1 : (min ((i : ℤ) + 1) ((l.length : ℕ) : ℤ)).toNat = l.length := by omega
      rw [h1, List.take_length, List.take_of_length_le (by omega)]
  rw [htake]
  rcases le_or_lt ((i : ℤ) - w + 1) ((l.length : ℕ) : ℤ) with h | h
  · congr 1; omega
  · have h1 : (l.take (i + 1)).length ≤ (min ((i : ℤ) - w + 1) ((l.length : ℕ) : ℤ)).toNat := by
      simp only [List.length_take]; omega
    have h2 : (l.take (i + 1)).length ≤ i + 1 - w.toNat := by
      simp only [List.length_take]; omega
    rw [List.drop_eq_nil_of_le h1, List.drop_eq_nil_of_le h2]

lemma trailing_length {α : Type} (l : List α) {i wn : ℕ} (hw : wn ≤ i + 1)
    (hi : i < l.length) : (trailing l i wn).length = wn := by
  simp only [trailing, List.length_drop, List.length_take]; omega

lemma trailing_map {α β : Type} (l : List α) (f : α → β) (i wn : ℕ) :
    trailing (l.map f) i wn = (trailing l i wn).map f := by
  simp [trailing, List.map_take, List.map_drop]

lemma trailing_getD {α : Type} (l : List α) {i wn k : ℕ} (hw : wn ≤ i + 1)
    (hi : i < l.length) (hk : k < wn) (d : α) :
    (trailing l i wn).getD k d = l.getD (i + 1 - wn + k) d := by
  have hget : (trailing l i wn)[k]? = l[i + 1 - wn + k]? := by
    unfold trailing
    rw [List.getElem?_drop]
    have hlt : i + 1 - wn + k < i + 1 := by omega
    simp [List.getElem?_take, hlt]
  simp [List.getD, hget]

lemma mem_trailing {α : Type} (l : List α) {i wn : ℕ} {x : α} (hw : wn ≤ i + 1)
    (hi : i < l.length) (hx : x ∈ trailing l i wn) (d : α) :
    ∃ k, k < wn ∧ x = l.getD (i + 1 - wn + k) d := by
  obtain ⟨k, hk, hval⟩ := List.mem_iff_getElem.mp hx
  have hk2 : k < wn := by rw [trailing_length l hw hi] at hk; exact hk
  refine ⟨k, hk2, ?_⟩
  rw [← trailing_getD l hw hi hk2 d, List.getD_eq_getElem _ d hk, hval]

lemma getD_mem_trailing {α : Type} (l : List α) {i wn : ℕ} (hw1 : 1 ≤ wn)
    (hw : wn ≤ i + 1) (hi : i < l.length) (d : α) :
    l.getD i d ∈ trailing l i wn := by
  have hlen : (trailing l i wn).length = wn := trailing_length l hw hi
  have hk : wn - 1 < wn := by omega
  have := trailing_getD l hw hi hk d
  have harg : i + 1 - wn + (wn - 1) = i := by omega
  rw [harg] at this
  rw [← this]
  have hklen : wn - 1 < (trailing l i wn).length := by omega
  rw [List.getD_eq_getElem _ d hklen]
  exact List.getElem_mem hklen

/-! ### NumPy-kernel helper lemmas -/

lemma npMean_of_none_mem {l : List FVal} (h : none ∈ l) : npMean l = none := by
  simp [npMean, h]

lemma npMean_nil : npMean [] = none := by simp [npMean]

lemma npMean_eq_some {l : List FVal} (hne : l ≠ []) (h : none ∉ l) :
    npMean l = some ((l.filterMap id).sum / (l.length : ℝ)) := by
  simp [npMean, hne, h]

lemma npStd_eq_some {l : List FVal} (hne : l ≠ []) (h : none ∉ l) :
    npStd l = some (Real.sqrt
      (((l.filterMap id).map fun x =>
          (x - (l.filterMap id).sum / (l.length : ℝ)) ^ 2).sum / (l.length : ℝ))) := by
  simp [npStd, hne, h]

lemma none_not_mem_map_some (xs : List ℝ) : none ∉ xs.map some := by simp

lemma npMean_map_some {xs : List ℝ} (hne : xs ≠ []) :
    npMean (xs.map some) = some (xs.sum / (xs.length : ℝ)) := by
  rw [npMean_eq_some (by simpa using hne) (none_not_mem_map_some xs)]
  simp

lemma npStd_map_some {xs : List ℝ} (hne : xs ≠ []) :
    npStd (xs.map some) = some (popStd xs) := by
  rw [npStd_eq_some (by simpa using hne) (none_not_mem_map_some xs)]
  simp [popStd]

lemma npNanmean_of_all_none {l : List FVal} (h : ∀ x ∈ l, x = none) :
    npNanmean l = none := by
  have : l.filterMap id = [] := by
    rw [List.filterMap_eq_nil]
    intro x hx
    rw [h x hx]; rfl
  simp [npNanmean, this]

/-! ### Float-comparison and classifier lemmas -/

lemma fgt_some_some {a b : ℝ} : fgt (some a) (some b) ↔ b < a := by
  constructor
  · rintro ⟨x, y, hx, hy, hlt⟩
    cases hx; cases hy; exact hlt
  · intro h; exact ⟨a, b, rfl, rfl, h⟩

lemma not_fgt_none_right (x : FVal) : ¬ fgt x none := by
  rintro ⟨a, b, _, hb, _⟩; cases hb

lemma not_fgt_none_left (y : FVal) : ¬ fgt none y := by
  rintro ⟨a, b, ha, _, _⟩; cases ha

lemma flt_some_some {a b : ℝ} : flt (some a) (some b) ↔ a < b := by
  rw [flt, fgt_some_some]

lemma classify_unknown {p ms ml vs thr : FVal}
    (h : ms = none ∨ ml = none ∨ vs = none) : classify p ms ml vs thr = -1 := by
  simp [classify, h]

lemma classify_somes (p : FVal) (ms ml vs : ℝ) (thr : FVal) :
    classify p (some ms) (some ml) (some vs) thr =
      if fgt p (some ms) ∧ fgt p (some ml) then (if fgt (some vs) thr then 1 else 2)
      else if flt p (some ms) ∧ flt p (some ml) then (if fgt (some vs) thr then 5 else 6)
      else if fgt (some vs) thr then 3 else 4 := by
  rw [classify, if_neg (by simp)]

lemma classify_bull {p ms ml vs : ℝ} {thr : FVal} (h1 : ms < p) (h2 : ml < p) :
    classify (some p) (some ms) (some ml) (some vs) thr =
      if fgt (some vs) thr then 1 else 2 := by
  rw [classify_somes, if_pos ⟨fgt_some_some.mpr h1, fgt_some_some.mpr h2⟩]

lemma classify_vs_none_thr (p : FVal) (ms ml vs : ℝ) :
    classify p (some ms) (some ml) (some vs) none = 2 ∨
    classify p (some ms) (some ml) (some vs) none = 4 ∨
    classify p (some ms) (some ml) (some vs) none = 6 := by
  rw [classify_somes]
  by_cases hb : fgt p (some ms) ∧ fgt p (some ml)
  · left; rw [if_pos hb, if_neg (not_fgt_none_right _)]
  · rw [if_neg hb]
    by_cases hs : flt p (some ms) ∧ flt p (some ml)
    · right; right; rw [if_pos hs, if_neg (not_fgt_none_right _)]
    · right; left; rw [if_neg hs, if_neg (not_fgt_none_right _)]

/-! ### Per-index unfolding of the pipeline stages -/

lemma rolling_mean_getD (arr : List FVal) (w : ℤ) {i : ℕ} (hi : i < arr.length) :
    (rolling_mean_nb arr w).getD i none =
      if (i : ℤ) < w - 1 then none
      else npMean (pySlice arr ((i : ℤ) - w + 1) ((i : ℤ) + 1)) := by
  rw [rolling_mean_nb, getD_map_range _ hi]

lemma annualized_volatility_getD (returns : List FVal) (w : ℤ) {i : ℕ}
    (hi : i < returns.length) :
    (annualized_volatility_nb returns w).getD i none =
      if (i : ℤ) < w - 1 then none
      else fmul (npStd (pySlice returns ((i : ℤ) - w + 1) ((i : ℤ) + 1)))
        (some (Real.sqrt 365)) := by
  rw [annualized_volatility_nb, getD_map_range _ hi]

lemma determine_regime_getD (price ma_short ma_long vol_short : List FVal)
    (thr : FVal) {i : ℕ} (hi : i < price.length) :
    (determine_regime_nb price ma_short ma_long vol_short thr).getD i 0 =
      classify (price.getD i none) (ma_short.getD i none) (ma_long.getD i none)
        (vol_short.getD i none) thr := by
  rw [determine_regime_nb, getD_map_range _ hi]

lemma calculate_regimes_getD (price returns : List FVal) (mS mL vS aW : ℤ) {i : ℕ}
    (hi : i < price.length) :
    (calculate_regimes_nb price returns mS mL vS aW).getD i 0 =
      classify (price.getD i none)
        ((rolling_mean_nb price mS).getD i none)
        ((rolling_mean_nb price mL).getD i none)
        ((annualized_volatility_nb returns vS).getD i none)
        (npNanmean (annualized_volatility_nb returns aW)) := by
  rw [calculate_regimes_nb, determine_regime_getD _ _ _ _ _ hi]

lemma pct_change_getD (price : List FVal) {i : ℕ} (hi : i < price.length) :
    (pct_change price).getD i none =
      if i = 0 then none
      else fdiv (fsub (price.getD i none) (price.getD (i - 1) none))
        (price.getD (i - 1) none) := by
  rw [pct_change, getD_map_range _ hi]

lemma length_rolling_mean (arr : List FVal) (w : ℤ) :
    (rolling_mean_nb arr w).length = arr.length := by
  simp [rolling_mean_nb]

lemma length_annualized_volatility (returns : List FVal) (w : ℤ) :
    (annualized_volatility_nb returns w).length = returns.length := by
  simp [annualized_volatility_nb]

lemma length_determine_regime (price ma_short ma_long vol_short : List FVal) (thr : FVal) :
    (determine_regime_nb price ma_short ma_long vol_short thr).length = price.length := by
  simp [determine_regime_nb]

lemma length_calculate_regimes (price returns : List FVal) (mS mL vS aW : ℤ) :
    (calculate_regimes_nb price returns mS mL vS aW).length = price.length := by
  simp [calculate_regimes_nb, length_determine_regime]

lemma length_pct_change (price : List FVal) :
    (pct_change price).length = price.length := by
  simp [pct_change]

lemma npStd_of_none_mem {l : List FVal} (h : none ∈ l) : npStd l = none := by
  simp [npStd, h]

lemma npNanmean_eq_npMean_filtered (l : List FVal) :
    npNanmean l = npMean ((l.filterMap id).map some) := by
  by_cases h : l.filterMap id = []
  · simp [npNanmean, npMean, h]
  · rw [npNanmean, if_neg h, npMean_map_some h]

lemma pySlice_empty_of_le {α : Type} (l : List α) {a b : ℤ} (hb : 0 ≤ b) (hab : b ≤ a) :
    pySlice l a b = [] := by
  unfold pySlice
  have ha : ¬ (a < 0) := by omega
  have hbneg : ¬ (b < 0) := by omega
  simp only [if_neg ha, if_neg hbneg]
  apply List.drop_eq_nil_of_le
  simp only [List.length_take]
  omega

lemma sum_lt_of_forall_le {l : List ℝ} {M : ℝ} (hall : ∀ x ∈ l, x ≤ M)
    (hex : ∃ x ∈ l, x < M) : l.sum < M * (l.length : ℝ) := by
  induction l with
  | nil => simp at hex
  | cons a t ih =>
    rw [List.sum_cons, List.length_cons]
    obtain ⟨x, hx, hlt⟩ := hex
    rcases List.mem_cons.mp hx with h | h
    · subst h
      have hsum : t.sum ≤ M * (t.length : ℝ) := by
        have := List.sum_le_card_nsmul t M (fun y hy => hall y (List.mem_cons_of_mem _ hy))
        simpa [nsmul_eq_mul, mul_comm] using this
      push_cast
      nlinarith
    · have hsum : t.sum < M * (t.length : ℝ) :=
        ih (fun y hy => hall y (List.mem_cons_of_mem _ hy)) ⟨x, h, hlt⟩
      have ha2 : a ≤ M := hall a (List.mem_cons_self a t)
      push_cast
      nlinarith

lemma mean_lt {l : List ℝ} {M : ℝ} (hne : l ≠ []) (hall : ∀ x ∈ l, x ≤ M)
    (hex : ∃ x ∈ l, x < M) : l.sum / (l.length : ℝ) < M := by
  have hlen : 0 < (l.length : ℝ) := by
    have : 0 < l.length := List.length_pos.mpr hne
    exact_mod_cast this
  rw [div_lt_iff hlen]
  exact sum_lt_of_forall_le hall hex

lemma classify_bear {p ms ml vs : ℝ} {thr : FVal} (h1 : p < ms) (h2 : p < ml) :
    classify (some p) (some ms) (some ml) (some vs) thr =
      if fgt (some vs) thr then 5 else 6 := by
  rw [classify_somes, if_neg (by simp only [fgt_some_some]; rintro ⟨h, _⟩; linarith),
    if_pos ⟨flt_some_some.mpr h1, flt_some_some.mpr h2⟩]

lemma classify_sideways {p ms ml vs : ℝ} {thr : FVal}
    (h1 : ¬ (ms < p ∧ ml < p)) (h2 : ¬ (p < ms ∧ p < ml)) :
    classify (some p) (some ms) (some ml) (some vs) thr =
      if fgt (some vs) thr then 3 else 4 := by
  rw [classify_somes, if_neg (by simp only [fgt_some_some]; exact h1),
    if_neg (by simp only [flt_some_some]; exact h2)]

lemma classify_price_nan {ms ml vs : ℝ} {thr : FVal} :
    classify none (some ms) (some ml) (some vs) thr =
      if fgt (some vs) thr then 3 else 4 := by
  rw [classify_somes, if_neg (by rintro ⟨h, _⟩; exact not_fgt_none_left _ h),
    if_neg (by rintro ⟨h, _⟩; exact not_fgt_none_right _ h)]

lemma classify_thr_none (p ms ml vs : FVal) :
    classify p ms ml vs none = -1 ∨ classify p ms ml vs none = 2 ∨
    classify p ms ml vs none = 4 ∨ classify p ms ml vs none = 6 := by
  by_cases h : ms = none ∨ ml = none ∨ vs = none
  · left; exact classify_unknown h
  · push_neg at h
    obtain ⟨hms, hml, hvs⟩ := h
    obtain ⟨a, ha⟩ := Option.ne_none_iff_exists'.mp hms
    obtain ⟨b, hb⟩ := Option.ne_none_iff_exists'.mp hml
    obtain ⟨c, hc⟩ := Option.ne_none_iff_exists'.mp hvs
    subst ha hb hc
    right
    rcases classify_vs_none_thr p a b c with h | h | h
    · rw [h]; tauto
    · rw [h]; tauto
    · rw [h]; tauto

/-! ### Claims -/

/-- Claim C10: at every index `i` where the input price is NaN the pipeline
outputs Unknown (-1), for any window parameters: the short moving-average
window ending at `i` contains `price[i]`, the windowed mean propagates NaN,
so `ma_short[i]` is NaN and the classifier's Unknown branch fires before any
price comparison. -/
theorem nan_price_unknown (price returns : List FVal) (mS mL vS aW : ℤ)
    (i : ℕ) (hi : i < price.length) (hnan : price.getD i none = none) :
    (calculate_regimes_nb price returns mS mL vS aW).getD i 0 = -1 := by
  rw [calculate_regimes_getD price returns mS mL vS aW hi]
  apply classify_unknown
  left
  rw [rolling_mean_getD price mS hi]
  by_cases hlt : (i : ℤ) < mS - 1
  · rw [if_pos hlt]
  · rw [if_neg hlt]
    by_cases hw : 1 ≤ mS
    · rw [pySlice_eq_trailing price mS hw i (by omega)]
      apply npMean_of_none_mem
      rw [← hnan]
      exact getD_mem_trailing price (by omega) (by omega) hi none
    · rw [pySlice_empty_of_le price (by omega) (by omega)]
      exact npMean_nil

/-- Witness for C10 at a concrete NaN price. -/
theorem nan_price_unknown_witness :
    (calculate_regimes_nb [none] [none] 21 88 21 365).getD 0 0 = -1 :=
  nan_price_unknown [none] [none] 21 88 21 365 0 (by norm_num) rfl

/-- Claim C9: when the annualized-volatility series computed with the
`avg_vol_window` has no defined entry, the global threshold (`np.nanmean` of
it) is NaN; every strict comparison against it is then false, so the labels
1, 3, 5 (Above-Average-Volatility) never occur, and every index whose moving
averages and short volatility are all defined gets a Below-Average label
(2, 4 or 6). -/
theorem nan_threshold_below_avg_labels (price returns : List FVal) (mS mL vS aW : ℤ)
    (hall : ∀ x ∈ annualized_volatility_nb returns aW, x = none)
    (i : ℕ) (hi : i < price.length) :
    npNanmean (annualized_volatility_nb returns aW) = none ∧
    (calculate_regimes_nb price returns mS mL vS aW).getD i 0 ≠ 1 ∧
    (calculate_regimes_nb price returns mS mL vS aW).getD i 0 ≠ 3 ∧
    (calculate_regimes_nb price returns mS mL vS aW).getD i 0 ≠ 5 ∧
    (∀ ms ml vs : ℝ,
      (rolling_mean_nb price mS).getD i none = some ms →
      (rolling_mean_nb price mL).getD i none = some ml →
      (annualized_volatility_nb returns vS).getD i none = some vs →
      (calculate_regimes_nb price returns mS mL vS aW).getD i 0 = 2 ∨
      (calculate_regimes_nb price returns mS mL vS aW).getD i 0 = 4 ∨
      (calculate_regimes_nb price returns mS mL vS aW).getD i 0 = 6) := by
  have hthr : npNanmean (annualized_volatility_nb returns aW) = none :=
    npNanmean_of_all_none hall
  have hcalc : (calculate_regimes_nb price returns mS mL vS aW).getD i 0 =
      classify (price.getD i none) ((rolling_mean_nb price mS).getD i none)
        ((rolling_mean_nb price mL).getD i none)
        ((annualized_volatility_nb returns vS).getD i none) none := by
    rw [calculate_regimes_getD price returns mS mL vS aW hi, hthr]
  have hset := classify_thr_none (price.getD i none)
    ((rolling_mean_nb price mS).getD i none) ((rolling_mean_nb price mL).getD i none)
    ((annualized_volatility_nb returns vS).getD i none)
  refine ⟨hthr, ?_, ?_, ?_, ?_⟩
  · rw [hcalc]; rcases hset with h | h | h | h <;> rw [h] <;> norm_num
  · rw [hcalc]; rcases hset with h | h | h | h <;> rw [h] <;> norm_num
  · rw [hcalc]; rcases hset with h | h | h | h <;> rw [h] <;> norm_num
  · intro ms ml vs hms hml hvs
    rw [hcalc, hms, hml, hvs]
    exact classify_vs_none_thr _ ms ml vs

/-- Witness for C9: a return series of length 2 (first entry NaN) with
`avg_vol_window = 2`, so the long-window volatility has no defined entry. -/
theorem nan_threshold_below_avg_labels_witness :
    (∀ x ∈ annualized_volatility_nb [none, some (1 : ℝ)] 2, x = none) ∧
    (calculate_regimes_nb [some 1, some 1] [none, some 1] 1 1 1 2).getD 1 0 ≠ 1 ∧
    (calculate_regimes_nb [some 1, some 1] [none, some 1] 1 1 1 2).getD 1 0 ≠ 3 ∧
    (calculate_regimes_nb [some 1, some 1] [none, some 1] 1 1 1 2).getD 1 0 ≠ 5 := by
  have hall : ∀ x ∈ annualized_volatility_nb [none, some (1 : ℝ)] 2, x = none := by
    intro x hx
    unfold annualized_volatility_nb at hx
    simp only [List.length_cons, List.length_nil, List.mem_map, List.mem_range] at hx
    obtain ⟨j, hj, rfl⟩ := hx
    interval_cases j
    · rw [if_pos (by norm_num)]
    · rw [if_neg (by norm_num),
        show pySlice [none, some (1 : ℝ)] ((1 : ℕ) - 2 + 1) ((1 : ℕ) + 1) = [none, some 1]
          from rfl,
        npStd_of_none_mem (by simp)]
      rfl
  obtain ⟨_, h1, h3, h5, _⟩ :=
    nan_threshold_below_avg_labels [some 1, some 1] [none, some 1] 1 1 1 2 hall 1 (by norm_num)
  exact ⟨hall, h1, h3, h5⟩

/-- Claim C4 (code behaviour at the failing input): on an empty series the
code does not raise any `InsufficientDataError` — no such error exists in
the program.  `calculate_regimes_nb` returns an empty label array, and
`forecast_next_regime` hits the empty-series error path of `iloc[-1]`
(an `IndexError`, modelled as `none`), not a dedicated error. -/
theorem empty_series_no_insufficient_data_error :
    calculate_regimes_nb [] [] 21 88 21 365 = [] ∧
    forecast_next_regime [] (1 / 100) = none := by
  constructor
  · exact List.length_eq_zero.mp (length_calculate_regimes [] [] 21 88 21 365)
  · rfl

/-- Claim C8 (code behaviour at the failing inputs): the pipeline performs no
window validation.  With a non-positive window (`ma_short_window = 0`) and
with `ma_short_window ≥ ma_long_window` (88 ≥ 21) it silently produces a
label sequence instead of raising `InvalidWindowParametersError` — no such
error exists in the program. -/
theorem invalid_windows_no_error :
    calculate_regimes_nb [some 1, some 2] [none, some 1] 0 88 21 365 = [-1, -1] ∧
    calculate_regimes_nb [some 1, some 2] [none, some 1] 88 21 21 365 = [-1, -1] := by
  constructor
  · apply List.ext_getElem
    · rw [length_calculate_regimes]; rfl
    · intro i h1 h2
      have hi : i < 2 := by simpa using h2
      have hlen : i < ([some 1, some 2] : List FVal).length := by simpa using hi
      have hgetD : (calculate_regimes_nb [some 1, some 2] [none, some 1] 0 88 21 365).getD i 0 =
          ([-1, -1] : List ℤ).getD i 0 := by
        rw [calculate_regimes_getD _ _ _ _ _ _ hlen]
        have hms : (rolling_mean_nb [some 1, some 2] 0).getD i none = none := by
          rw [rolling_mean_getD _ _ hlen, if_neg (by omega),
            pySlice_empty_of_le _ (by omega) (by omega)]
          exact npMean_nil
        rw [classify_unknown (Or.inl hms)]
        interval_cases i <;> rfl
      rw [← List.getD_eq_getElem _ 0 h1, ← List.getD_eq_getElem _ 0 h2, hgetD]
  · apply List.ext_getElem
    · rw [length_calculate_regimes]; rfl
    · intro i h1 h2
      have hi : i < 2 := by simpa using h2
      have hlen : i < ([some 1, some 2] : List FVal).length := by simpa using hi
      have hgetD : (calculate_regimes_nb [some 1, some 2] [none, some 1] 88 21 21 365).getD i 0 =
          ([-1, -1] : List ℤ).getD i 0 := by
        rw [calculate_regimes_getD _ _ _ _ _ _ hlen]
        have hms : (rolling_mean_nb [some 1, some 2] 88).getD i none = none := by
          rw [rolling_mean_getD _ _ hlen, if_pos (by omega)]
        rw [classify_unknown (Or.inl hms)]
        interval_cases i <;> rfl
      rw [← List.getD_eq_getElem _ 0 h1, ← List.getD_eq_getElem _ 0 h2, hgetD]

/-- Claim C1: per-index behaviour of the classifier.  If `ma_short[i]`,
`ma_long[i]` or `vol_short[i]` is NaN the label is Unknown (-1); otherwise,
if `price[i]` is strictly greater than both averages the label is 1 when
`vol_short[i] > avg_vol_threshold` and 2 otherwise; if strictly less than
both, 5 or 6 likewise; in every remaining case — including `price[i]`
exactly equal to either average, and a NaN price — the label is 3 or 4.
All comparisons are strict, with no epsilon tolerance. -/
theorem determine_regime_cases (price maS maL volS : List FVal) (thr : FVal)
    (i : ℕ) (hi : i < price.length) :
    ((maS.getD i none = none ∨ maL.getD i none = none ∨ volS.getD i none = none) →
      (determine_regime_nb price maS maL volS thr).getD i 0 = -1) ∧
    (∀ p ms ml vs : ℝ, price.getD i none = some p → maS.getD i none = some ms →
      maL.getD i none = some ml → volS.getD i none = some vs →
      (ms < p ∧ ml < p →
        (fgt (some vs) thr → (determine_regime_nb price maS maL volS thr).getD i 0 = 1) ∧
        (¬ fgt (some vs) thr → (determine_regime_nb price maS maL volS thr).getD i 0 = 2)) ∧
      (p < ms ∧ p < ml →
        (fgt (some vs) thr → (determine_regime_nb price maS maL volS thr).getD i 0 = 5) ∧
        (¬ fgt (some vs) thr → (determine_regime_nb price maS maL volS thr).getD i 0 = 6)) ∧
      (¬ (ms < p ∧ ml < p) → ¬ (p < ms ∧ p < ml) →
        (fgt (some vs) thr → (determine_regime_nb price maS maL volS thr).getD i 0 = 3) ∧
        (¬ fgt (some vs) thr → (determine_regime_nb price maS maL volS thr).getD i 0 = 4))) ∧
    (∀ ms ml vs : ℝ, price.getD i none = none → maS.getD i none = some ms →
      maL.getD i none = some ml → volS.getD i none = some vs →
      (fgt (some vs) thr → (determine_regime_nb price maS maL volS thr).getD i 0 = 3) ∧
      (¬ fgt (some vs) thr → (determine_regime_nb price maS maL volS thr).getD i 0 = 4)) := by
  have hout := determine_regime_getD price maS maL volS thr hi
  refine ⟨?_, ?_, ?_⟩
  · intro h
    rw [hout]
    exact classify_unknown h
  · intro p ms ml vs hp hms hml hvs
    rw [hout, hp, hms, hml, hvs]
    refine ⟨?_, ?_, ?_⟩
    · rintro ⟨h1, h2⟩
      rw [classify_bull h1 h2]
      constructor
      · intro hv; rw [if_pos hv]
      · intro hv; rw [if_neg hv]
    · rintro ⟨h1, h2⟩
      rw [classify_bear h1 h2]
      constructor
      · intro hv; rw [if_pos hv]
      · intro hv; rw [if_neg hv]
    · intro h1 h2
      rw [classify_sideways h1 h2]
      constructor
      · intro hv; rw [if_pos hv]
      · intro hv; rw [if_neg hv]
  · intro ms ml vs hp hms hml hvs
    rw [hout, hp, hms, hml, hvs, classify_price_nan]
    constructor
    · intro hv; rw [if_pos hv]
    · intro hv; rw [if_neg hv]

/-- Witness for C1: price 2 above both averages 1, volatility 5 above the
threshold 3, giving label 1. -/
theorem determine_regime_cases_witness :
    (determine_regime_nb [some 2] [some 1] [some 1] [some 5] (some 3)).getD 0 0 = 1 := by
  have h := (determine_regime_cases [some 2] [some 1] [some 1] [some 5] (some 3)
    0 (by norm_num)).2.1 2 1 1 5 rfl rfl rfl rfl
  exact (h.1 ⟨by norm_num, by norm_num⟩).1 ⟨5, 3, rfl, rfl, by norm_num⟩

/-- Claim C2: the volatility threshold is a single scalar — `np.nanmean`
(the mean over the defined entries, i.e. the plain mean of the NaN-filtered
list) of the annualized volatility computed over the whole return series
with `avg_vol_window`; and the run inside the forecast recomputes the whole
pipeline, threshold included, from the extended series. -/
theorem threshold_global_scalar (price returns : List FVal) (mS mL vS aW : ℤ) (hc : ℝ) :
    calculate_regimes_nb price returns mS mL vS aW =
      determine_regime_nb price (rolling_mean_nb price mS) (rolling_mean_nb price mL)
        (annualized_volatility_nb returns vS)
        (npNanmean (annualized_volatility_nb returns aW)) ∧
    npNanmean (annualized_volatility_nb returns aW) =
      npMean (((annualized_volatility_nb returns aW).filterMap id).map some) ∧
    (∀ lp : ℝ, price.getLast? = some (some lp) →
      forecast_next_regime price hc =
        (calculate_regimes_nb (price ++ [some (lp * (1 + hc))])
          (pct_change (price ++ [some (lp * (1 + hc))])) 21 88 21 365).getLast?) := by
  refine ⟨rfl, npNanmean_eq_npMean_filtered _, ?_⟩
  intro lp hl
  unfold forecast_next_regime
  rw [hl]
  rfl

/-- Witness for C2 on a one-bar price series. -/
theorem threshold_global_scalar_witness :
    forecast_next_regime [some 2] (1 / 100) =
      (calculate_regimes_nb ([some 2] ++ [some (2 * (1 + (1 / 100 : ℝ)))])
        (pct_change ([some 2] ++ [some (2 * (1 + (1 / 100 : ℝ)))])) 21 88 21 365).getLast? :=
  (threshold_global_scalar [some 2] [] 21 88 21 365 (1 / 100)).2.2 2 rfl

/-- Claim C3: for a non-empty price series with positive last price and any
hypothetical return, the forecast appends exactly one synthetic bar priced
`last × (1 + h)`, the recomputed return series has value `h` at the new last
index, and the returned value is exactly the pipeline label at that final
index of the extended series. -/
theorem forecast_appends_and_returns_last (price : List FVal) (lp hc : ℝ)
    (hne : price ≠ []) (hlast : price.getLast? = some (some lp)) (hpos : 0 < lp) :
    (price ++ [some (lp * (1 + hc))]).length = price.length + 1 ∧
    (price ++ [some (lp * (1 + hc))]).getD price.length none = some (lp * (1 + hc)) ∧
    (pct_change (price ++ [some (lp * (1 + hc))])).getD price.length none = some hc ∧
    ∃ r : ℤ, forecast_next_regime price hc = some r ∧
      (calculate_regimes_nb (price ++ [some (lp * (1 + hc))])
        (pct_change (price ++ [some (lp * (1 + hc))])) 21 88 21 365).getD price.length 0 = r := by
  have hn : 0 < price.length := List.length_pos.mpr hne
  have hlen : (price ++ [some (lp * (1 + hc))]).length = price.length + 1 := by simp
  have hgetlast : (price ++ [some (lp * (1 + hc))]).getD price.length none =
      some (lp * (1 + hc)) := by
    simp [List.getD, List.getElem?_concat_length]
  have hprevq : price[price.length - 1]? = some (some lp) := by
    rw [← List.getLast?_eq_getElem? price, hlast]
  have hprev : (price ++ [some (lp * (1 + hc))]).getD (price.length - 1) none = some lp := by
    have h1 : (price ++ [some (lp * (1 + hc))])[price.length - 1]? = some (some lp) := by
      rw [List.getElem?_append_left (by omega), hprevq]
    simp [List.getD, h1]
  have hpct : (pct_change (price ++ [some (lp * (1 + hc))])).getD price.length none =
      some hc := by
    rw [pct_change_getD _ (by rw [hlen]; omega), if_neg (by omega), hgetlast, hprev]
    show fdiv (some (lp * (1 + hc) - lp)) (some lp) = some hc
    rw [fdiv, if_neg (ne_of_gt hpos)]
    congr 1
    field_simp
    ring
  have hfc : forecast_next_regime price hc =
      (calculate_regimes_nb (price ++ [some (lp * (1 + hc))])
        (pct_change (price ++ [some (lp * (1 + hc))])) 21 88 21 365).getLast? := by
    unfold forecast_next_regime
    rw [hlast]
    rfl
  have hclen : (calculate_regimes_nb (price ++ [some (lp * (1 + hc))])
      (pct_change (price ++ [some (lp * (1 + hc))])) 21 88 21 365).length =
      price.length + 1 := by
    rw [length_calculate_regimes, hlen]
  refine ⟨hlen, hgetlast, hpct, ?_⟩
  refine ⟨(calculate_regimes_nb (price ++ [some (lp * (1 + hc))])
    (pct_change (price ++ [some (lp * (1 + hc))])) 21 88 21 365).getD price.length 0, ?_, rfl⟩
  rw [hfc, List.getLast?_eq_getElem?, hclen]
  have hlt : price.length < (calculate_regimes_nb (price ++ [some (lp * (1 + hc))])
      (pct_change (price ++ [some (lp * (1 + hc))])) 21 88 21 365).length := by
    rw [hclen]; omega
  have hsimp : price.length + 1 - 1 = price.length := by omega
  rw [hsimp, List.getElem?_eq_getElem hlt, List.getD_eq_getElem _ 0 hlt]

/-- Witness for C3 on a one-bar series priced 100 with a +50% hypothetical
return. -/
theorem forecast_appends_and_returns_last_witness :
    ([some (100 : ℝ)] ++ [some (100 * (1 + (1 / 2 : ℝ)))]).length = 1 + 1 ∧
    ([some (100 : ℝ)] ++ [some (100 * (1 + (1 / 2 : ℝ)))]).getD 1 none =
      some (100 * (1 + (1 / 2 : ℝ))) ∧
    (pct_change ([some (100 : ℝ)] ++ [some (100 * (1 + (1 / 2 : ℝ)))])).getD 1 none =
      some (1 / 2 : ℝ) ∧
    ∃ r : ℤ, forecast_next_regime [some 100] (1 / 2) = some r ∧
      (calculate_regimes_nb ([some (100 : ℝ)] ++ [some (100 * (1 + (1 / 2 : ℝ)))])
        (pct_change ([some (100 : ℝ)] ++ [some (100 * (1 + (1 / 2 : ℝ)))]))
        21 88 21 365).getD 1 0 = r :=
  forecast_appends_and_returns_last [some 100] 100 (1 / 2) (by simp) rfl (by norm_num)

/-- Claim C6 (amended): for window `w ≥ 1`, both rolling outputs are NaN at
every index `i < w - 1` (hence at every index when the series is shorter
than `w`); at an index `i ≥ w - 1` the output is defined when the trailing
window of size `w` contains no NaN, and NaN when it contains one (NaN
propagation — e.g. the leading NaN of a return series). -/
theorem warmup_nan_pattern (arr : List FVal) (w : ℤ) (hw : 1 ≤ w) (i : ℕ)
    (hi : i < arr.length) :
    ((arr.length : ℤ) < w →
      (rolling_mean_nb arr w).getD i none = none ∧
      (annualized_volatility_nb arr w).getD i none = none) ∧
    ((i : ℤ) < w - 1 →
      (rolling_mean_nb arr w).getD i none = none ∧
      (annualized_volatility_nb arr w).getD i none = none) ∧
    (w - 1 ≤ (i : ℤ) → none ∉ trailing arr i w.toNat →
      (∃ v : ℝ, (rolling_mean_nb arr w).getD i none = some v) ∧
      (∃ v : ℝ, (annualized_volatility_nb arr w).getD i none = some v)) ∧
    (w - 1 ≤ (i : ℤ) → none ∈ trailing arr i w.toNat →
      (rolling_mean_nb arr w).getD i none = none ∧
      (annualized_volatility_nb arr w).getD i none = none) := by
  have h2 : (i : ℤ) < w - 1 →
      (rolling_mean_nb arr w).getD i none = none ∧
      (annualized_volatility_nb arr w).getD i none = none := by
    intro h
    constructor
    · rw [rolling_mean_getD arr w hi, if_pos h]
    · rw [annualized_volatility_getD arr w hi, if_pos h]
  refine ⟨?_, h2, ?_, ?_⟩
  · intro h
    have hi2 : ((i : ℕ) : ℤ) < (arr.length : ℤ) := by exact_mod_cast hi
    exact h2 (by omega)
  · intro hge hnotin
    have hwle : w.toNat ≤ i + 1 := by omega
    have hne : trailing arr i w.toNat ≠ [] := by
      have hl := trailing_length arr hwle hi
      intro hnil
      rw [hnil] at hl
      simp at hl
      omega
    constructor
    · rw [rolling_mean_getD arr w hi, if_neg (by omega),
        pySlice_eq_trailing arr w hw i hge, npMean_eq_some hne hnotin]
      exact ⟨_, rfl⟩
    · rw [annualized_volatility_getD arr w hi, if_neg (by omega),
        pySlice_eq_trailing arr w hw i hge, npStd_eq_some hne hnotin]
      exact ⟨_, rfl⟩
  · intro hge hin
    constructor
    · rw [rolling_mean_getD arr w hi, if_neg (by omega),
        pySlice_eq_trailing arr w hw i hge, npMean_of_none_mem hin]
    · rw [annualized_volatility_getD arr w hi, if_neg (by omega),
        pySlice_eq_trailing arr w hw i hge, npStd_of_none_mem hin]
      rfl

/-- Counterexample to C6 as stated: the return series `[NaN, 0]` (the shape
`pct_change` always produces) with window 2 has `n = 2 ≥ w = 2`, yet the
annualized-volatility output at index `1 = w - 1` is NaN, not defined,
because the trailing window contains the leading NaN. -/
theorem warmup_defined_counterexample :
    (annualized_volatility_nb [none, some (0 : ℝ)] 2).getD 1 (some 37) = none := by
  unfold annualized_volatility_nb
  rw [getD_map_range _ (by norm_num) (some 37), if_neg (by norm_num),
    show pySlice [none, some (0 : ℝ)] ((1 : ℕ) - 2 + 1) ((1 : ℕ) + 1) = [none, some 0]
      from rfl,
    npStd_of_none_mem (by simp)]
  rfl

/-- Witness for the amended C6 at a NaN-free window. -/
theorem warmup_nan_pattern_witness :
    (∃ v : ℝ, (rolling_mean_nb [some 1, some 2] 2).getD 1 none = some v) ∧
    (∃ v : ℝ, (annualized_volatility_nb [some 1, some 2] 2).getD 1 none = some v) :=
  (warmup_nan_pattern [some 1, some 2] 2 (by norm_num) 1 (by norm_num)).2.2.1
    (by norm_num) (by simp [trailing])

/-- Claim C5 (amended): at every index `i ≥ w - 1` whose trailing window of
`w` returns is fully defined, the annualized-volatility output equals the
population (uncorrected, divisor `w`) standard deviation of those returns —
what `np.std` computes with its default `ddof = 0` — multiplied by
`sqrt 365`. -/
theorem annualized_volatility_population_std (returns : List FVal) (w : ℤ)
    (hw : 1 ≤ w) (i : ℕ) (hi : i < returns.length) (hiw : w - 1 ≤ (i : ℤ))
    (xs : List ℝ) (hxs : trailing returns i w.toNat = xs.map some) :
    (annualized_volatility_nb returns w).getD i none =
      some (popStd xs * Real.sqrt 365) := by
  have hlen : (trailing returns i w.toNat).length = w.toNat :=
    trailing_length returns (by omega) hi
  have hxs_ne : xs ≠ [] := by
    intro hnil
    rw [hxs, hnil] at hlen
    simp at hlen
    omega
  rw [annualized_volatility_getD returns w hi, if_neg (by omega),
    pySlice_eq_trailing returns w hw i hiw, hxs, npStd_map_some hxs_ne]
  rfl

/-- Counterexample to C5 as stated: for the returns `[0, 1]` with window 2
the code outputs `(1/2)·sqrt 365` (population std), not the sample standard
deviation `sqrt(1/2)·sqrt 365` (Bessel divisor `n − 1 = 1`). -/
theorem annualized_volatility_sample_std_counterexample :
    (annualized_volatility_nb [some 0, some 1] 2).getD 1 none ≠
      some (sampleStd [0, 1] * Real.sqrt 365) := by
  have h1 : (annualized_volatility_nb [some 0, some 1] 2).getD 1 none =
      some (popStd [0, 1] * Real.sqrt 365) := by
    unfold annualized_volatility_nb
    rw [getD_map_range _ (by norm_num) none, if_neg (by norm_num),
      show pySlice [some (0 : ℝ), some 1] ((1 : ℕ) - 2 + 1) ((1 : ℕ) + 1) =
        [(0 : ℝ), 1].map some from rfl,
      npStd_map_some (by simp)]
    rfl
  have h2 : popStd [(0 : ℝ), 1] = 1 / 2 := by
    unfold popStd
    norm_num
    rw [show (4 : ℝ) = 2 ^ 2 by norm_num, Real.sqrt_sq (by norm_num)]
    norm_num
  have h3 : sampleStd [(0 : ℝ), 1] = Real.sqrt (1 / 2) := by
    unfold sampleStd
    norm_num
  rw [h1, h2, h3]
  intro hcontra
  have heq : (1 / 2 : ℝ) * Real.sqrt 365 = Real.sqrt (1 / 2) * Real.sqrt 365 :=
    Option.some.inj hcontra
  have h365 : Real.sqrt 365 ≠ 0 :=
    ne_of_gt (Real.sqrt_pos.mpr (by norm_num))
  have hhalf : (1 / 2 : ℝ) = Real.sqrt (1 / 2) := mul_right_cancel₀ h365 heq
  have hsq : Real.sqrt (1 / 2) ^ 2 = 1 / 2 := Real.sq_sqrt (by norm_num)
  rw [← hhalf] at hsq
  norm_num at hsq

/-- Witness for the amended C5 at the window `[0, 1]`. -/
theorem annualized_volatility_population_std_witness :
    (annualized_volatility_nb [some 0, some 1] 2).getD 1 none =
      some (popStd [0, 1] * Real.sqrt 365) :=
  annualized_volatility_population_std [some 0, some 1] 2 (by norm_num) 1 (by norm_num)
    (by norm_num) [0, 1] (by simp [trailing])

/-! ### Support for the end-to-end claim -/

lemma fdiv_some {a b : ℝ} (h : b ≠ 0) : fdiv (some a) (some b) = some (a / b) := by
  simp [fdiv, h]

lemma rolling_mean_map_some (p : List ℝ) (w : ℤ) (hw : 1 ≤ w) (i : ℕ)
    (hip : i < p.length) (hwi : w - 1 ≤ (i : ℤ)) :
    (rolling_mean_nb (p.map some) w).getD i none =
      some ((trailing p i w.toNat).sum / ((trailing p i w.toNat).length : ℝ)) := by
  have hipm : i < (p.map some).length := by simpa using hip
  have hwle : w.toNat ≤ i + 1 := by omega
  have htl : (trailing p i w.toNat).length = w.toNat := trailing_length p hwle hip
  have hne : trailing p i w.toNat ≠ [] := by
    intro hnil
    rw [hnil] at htl
    simp at htl
    omega
  rw [rolling_mean_getD _ _ hipm, if_neg (by omega),
    pySlice_eq_trailing _ w hw i hwi, trailing_map, npMean_map_some hne]

lemma trailing_mean_lt (p : List ℝ) (i wn : ℕ) (hw : 2 ≤ wn) (hwle : wn ≤ i + 1)
    (hip : i < p.length)
    (hmono : ∀ j k : ℕ, j < k → k < p.length → p.getD j 0 < p.getD k 0) :
    (trailing p i wn).sum / ((trailing p i wn).length : ℝ) < p.getD i 0 := by
  have htl : (trailing p i wn).length = wn := trailing_length p hwle hip
  have hne : trailing p i wn ≠ [] := by
    intro h
    rw [h] at htl
    simp at htl
    omega
  apply mean_lt hne
  · intro x hx
    obtain ⟨k, hk, rfl⟩ := mem_trailing p hwle hip hx 0
    rcases lt_or_eq_of_le (show i + 1 - wn + k ≤ i by omega) with hlt | heq
    · exact le_of_lt (hmono _ _ hlt hip)
    · rw [heq]
  · have hpos0 : 0 < (trailing p i wn).length := by omega
    refine ⟨(trailing p i wn).getD 0 0, ?_, ?_⟩
    · rw [List.getD_eq_getElem _ 0 hpos0]
      exact List.getElem_mem hpos0
    · rw [trailing_getD p hwle hip (by omega) 0]
      exact hmono _ _ (by omega) hip

lemma pct_change_defined (p : List ℝ) (hpos : ∀ x ∈ p, 0 < x) (j : ℕ)
    (hj : 1 ≤ j) (hjp : j < p.length) :
    ∃ v : ℝ, (pct_change (p.map some)).getD j none = some v := by
  have hjm : j < (p.map some).length := by simpa using hjp
  rw [pct_change_getD _ hjm, if_neg (by omega), getD_map_some p hjp 0,
    getD_map_some p (show j - 1 < p.length by omega) 0]
  have hne : p.getD (j - 1) 0 ≠ 0 := by
    have hmem : p.getD (j - 1) 0 ∈ p := by
      rw [List.getD_eq_getElem _ 0 (show j - 1 < p.length by omega)]
      exact List.getElem_mem _
    exact ne_of_gt (hpos _ hmem)
  exact ⟨_, fdiv_some hne⟩

lemma vol_defined_on_pct (p : List ℝ) (hpos : ∀ x ∈ p, 0 < x) (i : ℕ)
    (hi : i < p.length) (h21 : 21 ≤ i) :
    ∃ v : ℝ,
      (annualized_volatility_nb (pct_change (p.map some)) 21).getD i none = some v := by
  have hrlen : (pct_change (p.map some)).length = p.length := by
    rw [length_pct_change]; simp
  have hirets : i < (pct_change (p.map some)).length := by omega
  rw [annualized_volatility_getD _ 21 hirets, if_neg (by omega),
    pySlice_eq_trailing _ 21 (by norm_num) i (by omega)]
  have hnotin : none ∉ trailing (pct_change (p.map some)) i ((21 : ℤ)).toNat := by
    intro hin
    obtain ⟨k, hk, heq⟩ := mem_trailing _ (by omega) hirets hin none
    have hj1 : 1 ≤ i + 1 - (21 : ℤ).toNat + k := by omega
    have hjlt : i + 1 - (21 : ℤ).toNat + k < p.length := by omega
    obtain ⟨v, hv⟩ := pct_change_defined p hpos _ hj1 hjlt
    rw [hv] at heq
    exact Option.noConfusion heq
  have hne : trailing (pct_change (p.map some)) i ((21 : ℤ)).toNat ≠ [] := by
    have htl := trailing_length (pct_change (p.map some))
      (show (21 : ℤ).toNat ≤ i + 1 by omega) hirets
    intro h
    rw [h] at htl
    simp at htl
  rw [npStd_eq_some hne hnotin]
  exact ⟨_, rfl⟩

/-- Claim C7: for every strictly increasing (positive, per the PriceSeries
data model) price series of length 400 with its derived percentage-change
return series, and windows (21, 88, 21, 365), the pipeline labels indices
0..86 Unknown (-1) — limited by the largest rolling warm-up, 88 - 1 — and
every index 87..399 with one of the two Bull-Trend labels (1 or 2). -/
theorem increasing_series_bull_labels (p : List ℝ) (hlen : p.length = 400)
    (hmono : ∀ j k : ℕ, j < k → k < p.length → p.getD j 0 < p.getD k 0)
    (hpos : ∀ x ∈ p, 0 < x) (i : ℕ) (hi : i < 400) :
    (i ≤ 86 →
      (calculate_regimes_nb (p.map some) (pct_change (p.map some))
        21 88 21 365).getD i 0 = -1) ∧
    (87 ≤ i →
      (calculate_regimes_nb (p.map some) (pct_change (p.map some))
        21 88 21 365).getD i 0 = 1 ∨
      (calculate_regimes_nb (p.map some) (pct_change (p.map some))
        21 88 21 365).getD i 0 = 2) := by
  have hplen : (p.map some).length = 400 := by simp [hlen]
  have hip : i < (p.map some).length := by omega
  have hcalc := calculate_regimes_getD (p.map some) (pct_change (p.map some)) 21 88 21 365 hip
  constructor
  · intro h86
    rw [hcalc]
    apply classify_unknown
    right; left
    rw [rolling_mean_getD _ _ hip, if_pos (by omega)]
  · intro h87
    rw [hcalc]
    have hpv : (p.map some).getD i none = some (p.getD i 0) :=
      getD_map_some p (by omega) 0
    have hms := rolling_mean_map_some p 21 (by norm_num) i (by omega) (by omega)
    have hml := rolling_mean_map_some p 88 (by norm_num) i (by omega) (by omega)
    obtain ⟨vs, hvs⟩ := vol_defined_on_pct p hpos i (by omega) (by omega)
    rw [hpv, hms, hml, hvs]
    have hlt21 := trailing_mean_lt p i ((21 : ℤ)).toNat (by omega) (by omega) (by omega) hmono
    have hlt88 := trailing_mean_lt p i ((88 : ℤ)).toNat (by omega) (by omega) (by omega) hmono
    rw [classify_bull hlt21 hlt88]
    by_cases hv : fgt (some vs)
      (npNanmean (annualized_volatility_nb (pct_change (p.map some)) 365))
    · left; rw [if_pos hv]
    · right; rw [if_neg hv]

/-- Witness for C7 on the linear ramp 1, 2, ..., 400. -/
theorem increasing_series_bull_labels_witness :
    (calculate_regimes_nb (((List.range 400).map fun (k : ℕ) => ((k : ℝ) + 1)).map some)
      (pct_change (((List.range 400).map fun (k : ℕ) => ((k : ℝ) + 1)).map some))
      21 88 21 365).getD 0 0 = -1 ∧
    ((calculate_regimes_nb (((List.range 400).map fun (k : ℕ) => ((k : ℝ) + 1)).map some)
      (pct_change (((List.range 400).map fun (k : ℕ) => ((k : ℝ) + 1)).map some))
      21 88 21 365).getD 87 0 = 1 ∨
     (calculate_regimes_nb (((List.range 400).map fun (k : ℕ) => ((k : ℝ) + 1)).map some)
      (pct_change (((List.range 400).map fun (k : ℕ) => ((k : ℝ) + 1)).map some))
      21 88 21 365).getD 87 0 = 2) := by
  have hlen : ((List.range 400).map fun (k : ℕ) => ((k : ℝ) + 1)).length = 400 := by simp
  have hmono : ∀ j k : ℕ, j < k →
      k < ((List.range 400).map fun (k : ℕ) => ((k : ℝ) + 1)).length →
      ((List.range 400).map fun (k : ℕ) => ((k : ℝ) + 1)).getD j 0 <
        ((List.range 400).map fun (k : ℕ) => ((k : ℝ) + 1)).getD k 0 := by
    intro j k hjk hk
    rw [hlen] at hk
    rw [getD_map_range _ (by omega) 0, getD_map_range _ hk 0]
    have : (j : ℝ) < (k : ℝ) := by exact_mod_cast hjk
    linarith
  have hpos : ∀ x ∈ (List.range 400).map fun (k : ℕ) => ((k : ℝ) + 1), 0 < x := by
    intro x hx
    simp only [List.mem_map, List.mem_range] at hx
    obtain ⟨k, _, rfl⟩ := hx
    positivity
  exact ⟨(increasing_series_bull_labels _ hlen hmono hpos 0 (by norm_num)).1 (by norm_num),
    (increasing_series_bull_labels _ hlen hmono hpos 87 (by norm_num)).2 (by norm_num)⟩
